import Mathlib

/-!
Shallow embedding of src/harmonica/forward/tesseroid.py: the adaptive
discretization of a tesseroid relative to one computation point, the
conversion of the resulting leaf tesseroids into equivalent point masses,
and the validation / overflow handling of the driver tesseroid_gravity.
Python floats are modelled as real numbers; the stack and the leaf buffer
are modelled as lists (head of the stack list = top of the stack).
-/

namespace Harmonica

/-- A tesseroid: west/east/south/north angular bounds (degrees) and bottom/top
radii (meters), mirroring the 6-element arrays of tesseroid.py. -/
structure Tesseroid where
  w : ℝ
  e : ℝ
  s : ℝ
  n : ℝ
  bottom : ℝ
  top : ℝ

/-- A computation point in geocentric spherical coordinates
(longitude and latitude in degrees, radius in meters). -/
structure Coordinates where
  longitude : ℝ
  latitude : ℝ
  radius : ℝ

/-- np.radians: convert degrees to radians. -/
noncomputable def radians (x : ℝ) : ℝ := x * Real.pi / 180

/-- Embedding of _tesseroid_dimensions: the three characteristic dimensions
(l_lon, l_lat, l_rad) of a tesseroid. -/
noncomputable def _tesseroid_dimensions (t : Tesseroid) : ℝ × ℝ × ℝ :=
  let w := radians t.w
  let e := radians t.e
  let s := radians t.s
  let n := radians t.n
  let latitude_center := (n + s) / 2
  let l_lat := t.top * Real.arccos (Real.sin n * Real.sin s + Real.cos n * Real.cos s)
  let l_lon := t.top *
    Real.arccos (Real.sin latitude_center ^ 2 +
      Real.cos latitude_center ^ 2 * Real.cos (e - w))
  let l_rad := t.top - t.bottom
  (l_lon, l_lat, l_rad)

/-- Embedding of _distance_tesseroid_point: distance between a computation point
and the center of a tesseroid.  As in the source, the suffix _p marks the
tesseroid center. -/
noncomputable def _distance_tesseroid_point (coordinates : Coordinates) (t : Tesseroid) : ℝ :=
  let longitude := radians coordinates.longitude
  let latitude := radians coordinates.latitude
  let radius := coordinates.radius
  let longitude_p := radians ((t.w + t.e) / 2)
  let latitude_p := radians ((t.s + t.n) / 2)
  let radius_p := (t.bottom + t.top) / 2
  let cospsi := Real.sin latitude_p * Real.sin latitude +
    Real.cos latitude_p * Real.cos latitude * Real.cos (longitude_p - longitude)
  Real.sqrt ((radius - radius_p) ^ 2 + 2 * radius * radius_p * (1 - cospsi))

/-- Embedding of _split_tesseroid: the list of children in the order in which the
source pushes them onto the stack (i over longitude outermost, j over latitude,
k over radius innermost). -/
noncomputable def _split_tesseroid (t : Tesseroid) (nl nt nr : ℕ) : List Tesseroid :=
  let d_lon := (t.e - t.w) / nl
  let d_lat := (t.n - t.s) / nt
  let d_rad := (t.top - t.bottom) / nr
  (List.range nl).flatMap fun i =>
    (List.range nt).flatMap fun j =>
      (List.range nr).map fun (k : ℕ) =>
        ⟨t.w + d_lon * (i : ℝ), t.w + d_lon * ((i : ℕ) + 1 : ℕ),
         t.s + d_lat * (j : ℝ), t.s + d_lat * ((j : ℕ) + 1 : ℕ),
         t.bottom + d_rad * (k : ℝ), t.bottom + d_rad * ((k : ℕ) + 1 : ℕ)⟩

/-- The longitude split count of one loop iteration of _adaptive_discretization:
2 when distance / l_lon < D, else 1. -/
noncomputable def n_lon (coordinates : Coordinates) (D : ℝ) (t : Tesseroid) : ℕ :=
  if _distance_tesseroid_point coordinates t / (_tesseroid_dimensions t).1 < D then 2 else 1

/-- The latitude split count of one loop iteration of _adaptive_discretization:
2 when distance / l_lat < D, else 1. -/
noncomputable def n_lat (coordinates : Coordinates) (D : ℝ) (t : Tesseroid) : ℕ :=
  if _distance_tesseroid_point coordinates t / (_tesseroid_dimensions t).2.1 < D then 2 else 1

/-- The radius split count of one loop iteration of _adaptive_discretization:
2 when distance / l_rad < D and radial discretization is enabled, else 1. -/
noncomputable def n_rad (coordinates : Coordinates) (D : ℝ) (radial_discretization : Bool)
    (t : Tesseroid) : ℕ :=
  if _distance_tesseroid_point coordinates t / (_tesseroid_dimensions t).2.2 < D ∧
      radial_discretization = true then 2 else 1

/-- The while loop of _adaptive_discretization.  First list argument: the stack
(head = top), second: the small_tesseroids recorded so far.  Returns the final
leaf list together with the error code (0 success, -1 stack overflow, -2 leaf
buffer overflow), exactly as the source returns (n_splits, error) with the
leaves in the small_tesseroids buffer. -/
noncomputable def discretizationLoop (coordinates : Coordinates) (D : ℝ)
    (radial_discretization : Bool) (stack_size max_discretizations : ℕ) :
    List Tesseroid → List Tesseroid → List Tesseroid × ℤ
  | [], small_tesseroids => (small_tesseroids, 0)
  | t :: rest, small_tesseroids =>
    if 1 < n_lon coordinates D t * n_lat coordinates D t *
        n_rad coordinates D radial_discretization t then
      if stack_size < rest.length + n_lon coordinates D t * n_lat coordinates D t *
          n_rad coordinates D radial_discretization t then
        (small_tesseroids, -1)
      else
        discretizationLoop coordinates D radial_discretization stack_size max_discretizations
          ((_split_tesseroid t (n_lon coordinates D t) (n_lat coordinates D t)
            (n_rad coordinates D radial_discretization t)).reverse ++ rest)
          small_tesseroids
    else
      if max_discretizations < small_tesseroids.length + 1 then
        (small_tesseroids, -2)
      else
        discretizationLoop coordinates D radial_discretization stack_size max_discretizations
          rest (small_tesseroids ++ [t])
  termination_by stack small =>
    (max_discretizations + 1 - small.length) * (stack_size + 2) +
      (stack_size + 1 - stack.length)
  decreasing_by
  · have hsplitlen : ∀ t' : Tesseroid, ∀ a b c : ℕ,
        (_split_tesseroid t' a b c).length = a * b * c := by
      intro t' a b c
      simp [_split_tesseroid, List.length_flatMap, Function.comp_def]
      ring
    simp only [List.length_append, List.length_reverse, hsplitlen, List.length_cons]
    rename_i hprod hcap
    generalize hA : (max_discretizations + 1 - small_tesseroids.length) * (stack_size + 2) = A
    generalize hm : n_lon coordinates D t * n_lat coordinates D t *
      n_rad coordinates D radial_discretization t = m at hprod hcap
    omega
  · rename_i hprod hcap
    simp only [List.length_append, List.length_cons, List.length_nil, Nat.zero_add]
    have h1 : max_discretizations + 1 - small_tesseroids.length =
        (max_discretizations + 1 - (small_tesseroids.length + 1)) + 1 := by omega
    rw [h1, add_mul, one_mul]
    generalize (max_discretizations + 1 - (small_tesseroids.length + 1)) * (stack_size + 2) = A
    omega

/-- Embedding of _adaptive_discretization: push the input tesseroid and run the
loop.  Returns the leaf list (the content of small_tesseroids) and the error
code. -/
noncomputable def _adaptive_discretization (coordinates : Coordinates) (tesseroid : Tesseroid)
    (D : ℝ) (stack_size max_discretizations : ℕ) (radial_discretization : Bool) :
    List Tesseroid × ℤ :=
  discretizationLoop coordinates D radial_discretization stack_size max_discretizations
    [tesseroid] []

/-- Fuel-indexed variant of the while loop of _adaptive_discretization: one unit
of fuel is one loop iteration, and none is returned when the fuel runs out
before the loop does.  Used to express that the loop terminates within a number
of iterations bounded by the two capacities. -/
noncomputable def discretizationLoopFuel (coordinates : Coordinates) (D : ℝ)
    (radial_discretization : Bool) (stack_size max_discretizations : ℕ) :
    ℕ → List Tesseroid → List Tesseroid → Option (List Tesseroid × ℤ)
  | 0, _, _ => none
  | _ + 1, [], small_tesseroids => some (small_tesseroids, 0)
  | fuel + 1, t :: rest, small_tesseroids =>
    if 1 < n_lon coordinates D t * n_lat coordinates D t *
        n_rad coordinates D radial_discretization t then
      if stack_size < rest.length + n_lon coordinates D t * n_lat coordinates D t *
          n_rad coordinates D radial_discretization t then
        some (small_tesseroids, -1)
      else
        discretizationLoopFuel coordinates D radial_discretization stack_size
          max_discretizations fuel
          ((_split_tesseroid t (n_lon coordinates D t) (n_lat coordinates D t)
            (n_rad coordinates D radial_discretization t)).reverse ++ rest)
          small_tesseroids
    else
      if max_discretizations < small_tesseroids.length + 1 then
        some (small_tesseroids, -2)
      else
        discretizationLoopFuel coordinates D radial_discretization stack_size
          max_discretizations fuel rest (small_tesseroids ++ [t])

/-- The closed set of failure kinds of the pipeline. -/
inductive TessError
  | InvalidTesseroid
  | PointInsideTesseroid
  | InvalidDegree
  | StackOverflow
  | BufferOverflow
deriving DecidableEq

/-- Embedding of _check_tesseroid: well-formedness of the tesseroid bounds. -/
noncomputable def _check_tesseroid (t : Tesseroid) : Except TessError Unit :=
  if t.w ≥ t.e then .error .InvalidTesseroid
  else if t.s ≥ t.n then .error .InvalidTesseroid
  else if t.bottom ≤ 0 ∨ t.top ≤ 0 then .error .InvalidTesseroid
  else if t.bottom ≥ t.top then .error .InvalidTesseroid
  else .ok ()

/-- Embedding of _check_point_outside_tesseroid: the computation point must not
lie strictly inside all six bounds. -/
noncomputable def _check_point_outside_tesseroid (coordinates : Coordinates)
    (t : Tesseroid) : Except TessError Unit :=
  if (coordinates.longitude > t.w ∧ coordinates.longitude < t.e) ∧
      (coordinates.latitude > t.s ∧ coordinates.latitude < t.n) ∧
      (coordinates.radius > t.bottom ∧ coordinates.radius < t.top) then
    .error .PointInsideTesseroid
  else .ok ()

/-- Modelled from the spec: glq_nodes_weights delegates the degree validation to
numpy.polynomial.legendre.leggauss, which is external to src; per spec section
4.1 the GLQ rule generator fails with InvalidDegree if any degree < 1, and on
success the total number of nodes is the product of the three degrees.  The
node and weight values themselves are not needed by any claim settled against
this model. -/
def glq_nodes_weights (glq_degrees : ℕ × ℕ × ℕ) : Except TessError ℕ :=
  if glq_degrees.1 < 1 ∨ glq_degrees.2.1 < 1 ∨ glq_degrees.2.2 < 1 then
    .error .InvalidDegree
  else .ok (glq_degrees.1 * glq_degrees.2.1 * glq_degrees.2.2)

/-- Embedding of tesseroid_gravity up to the point-mass stage, in the source's
order: tesseroid validation, point-outside validation, adaptive discretization
with overflow reporting, then GLQ node generation.  The kernel summation over
the point masses is external to the core (spec section 1) and is not modelled;
on success the leaf set and the total number of point masses are returned. -/
noncomputable def tesseroid_gravity (coordinates : Coordinates) (tesseroid : Tesseroid)
    (D : ℝ) (glq_degrees : ℕ × ℕ × ℕ) (stack_size max_discretizations : ℕ)
    (radial_discretization : Bool) : Except TessError (List Tesseroid × ℕ) :=
  match _check_tesseroid tesseroid with
  | .error err => .error err
  | .ok _ =>
    match _check_point_outside_tesseroid coordinates tesseroid with
    | .error err => .error err
    | .ok _ =>
      let res := _adaptive_discretization coordinates tesseroid D stack_size
        max_discretizations radial_discretization
      if res.2 = -1 then .error .StackOverflow
      else if res.2 = -2 then .error .BufferOverflow
      else
        match glq_nodes_weights glq_degrees with
        | .error err => .error err
        | .ok n_nodes => .ok (res.1, n_nodes * res.1.length)

/-- An equivalent point mass: position and geometric weight. -/
structure PointMass where
  longitude : ℝ
  latitude : ℝ
  radius : ℝ
  weight : ℝ

/-- The loop body of tesseroids_to_point_masses: the point mass produced for
tesseroid t at node indices (i, j, k). -/
noncomputable def point_mass_of (t : Tesseroid)
    (glq_nodes : List ℝ × List ℝ × List ℝ) (glq_weights : List ℝ × List ℝ × List ℝ)
    (i j k : ℕ) : PointMass :=
  let A_factor := 1 / 8 * radians (t.e - t.w) * radians (t.n - t.s) * (t.top - t.bottom)
  let longitude := 0.5 * (t.e - t.w) * glq_nodes.1.getD i 0 + 0.5 * (t.e + t.w)
  let latitude := 0.5 * (t.n - t.s) * glq_nodes.2.1.getD j 0 + 0.5 * (t.n + t.s)
  let radius := 0.5 * (t.top - t.bottom) * glq_nodes.2.2.getD k 0 +
    0.5 * (t.top + t.bottom)
  let kappa := radius ^ 2 * Real.cos (radians latitude)
  ⟨longitude, latitude, radius,
    A_factor * kappa * glq_weights.1.getD i 0 * glq_weights.2.1.getD j 0 *
      glq_weights.2.2.getD k 0⟩

/-- Embedding of tesseroids_to_point_masses: the produced point masses in
mass_index order (tesseroids outermost, then i over longitude nodes, j over
latitude nodes, k over radius nodes).  The GLQ degrees are recovered from the
node list lengths, as in the source. -/
noncomputable def tesseroids_to_point_masses (tesseroids : List Tesseroid)
    (glq_nodes : List ℝ × List ℝ × List ℝ) (glq_weights : List ℝ × List ℝ × List ℝ) :
    List PointMass :=
  tesseroids.flatMap fun t =>
    (List.range glq_nodes.1.length).flatMap fun i =>
      (List.range glq_nodes.2.1.length).flatMap fun j =>
        (List.range glq_nodes.2.2.length).map fun k =>
          point_mass_of t glq_nodes glq_weights i j k

/-- The child bounds as the spec describes them: on each split axis, child index
m gets bounds from linear interpolation, lo + m * (hi - lo) / parts up to
lo + (m + 1) * (hi - lo) / parts. -/
noncomputable def splitChild (t : Tesseroid) (nl nt nr i j k : ℕ) : Tesseroid :=
  ⟨t.w + (i : ℝ) * (t.e - t.w) / nl, t.w + ((i : ℝ) + 1) * (t.e - t.w) / nl,
   t.s + (j : ℝ) * (t.n - t.s) / nt, t.s + ((j : ℝ) + 1) * (t.n - t.s) / nt,
   t.bottom + (k : ℝ) * (t.top - t.bottom) / nr,
   t.bottom + ((k : ℝ) + 1) * (t.top - t.bottom) / nr⟩

/-- A concrete well-formed tesseroid used to exercise the theorems: 90 degrees
wide in longitude and latitude, centred on the equator and prime meridian,
radii 1 and 2. -/
noncomputable def tA : Tesseroid := ⟨-45, 45, -45, 45, 1, 2⟩

/-- A concrete computation point on the top surface of tA (not strictly inside
it), close enough that the horizontal axes of tA violate the distance-size
criterion for D = 1. -/
noncomputable def pA : Coordinates := ⟨0, 0, 2⟩

/-- A concrete computation point far above tA, so that every axis of tA
satisfies the distance-size criterion for D = 1. -/
noncomputable def pB : Coordinates := ⟨0, 0, 100⟩

theorem tA_w : tA.w = -45 := rfl

theorem tA_e : tA.e = 45 := rfl

theorem tA_s : tA.s = -45 := rfl

theorem tA_n : tA.n = 45 := rfl

theorem tA_bottom : tA.bottom = 1 := rfl

theorem tA_top : tA.top = 2 := rfl

theorem pA_longitude : pA.longitude = 0 := rfl

theorem pA_latitude : pA.latitude = 0 := rfl

theorem pA_radius : pA.radius = 2 := rfl

theorem pB_longitude : pB.longitude = 0 := rfl

theorem pB_latitude : pB.latitude = 0 := rfl

theorem pB_radius : pB.radius = 100 := rfl

/-- Unfolded form of _tesseroid_dimensions. -/
theorem tesseroid_dimensions_eq (t : Tesseroid) :
    _tesseroid_dimensions t =
      (t.top * Real.arccos
          (Real.sin ((radians t.n + radians t.s) / 2) ^ 2 +
            Real.cos ((radians t.n + radians t.s) / 2) ^ 2 *
              Real.cos (radians t.e - radians t.w)),
        t.top * Real.arccos
          (Real.sin (radians t.n) * Real.sin (radians t.s) +
            Real.cos (radians t.n) * Real.cos (radians t.s)),
        t.top - t.bottom) := rfl

/-- Unfolded form of _distance_tesseroid_point. -/
theorem distance_tesseroid_point_eq (c : Coordinates) (t : Tesseroid) :
    _distance_tesseroid_point c t =
      Real.sqrt ((c.radius - (t.bottom + t.top) / 2) ^ 2 +
        2 * c.radius * ((t.bottom + t.top) / 2) *
          (1 - (Real.sin (radians ((t.s + t.n) / 2)) * Real.sin (radians c.latitude) +
            Real.cos (radians ((t.s + t.n) / 2)) * Real.cos (radians c.latitude) *
              Real.cos (radians ((t.w + t.e) / 2) - radians c.longitude)))) := rfl

theorem dims_tA : _tesseroid_dimensions tA = (Real.pi, Real.pi, 1) := by
  rw [tesseroid_dimensions_eq, tA_w, tA_e, tA_s, tA_n, tA_bottom, tA_top]
  have h45 : radians 45 = Real.pi / 4 := by unfold radians; ring
  have h45n : radians (-45) = -(Real.pi / 4) := by unfold radians; ring
  rw [h45, h45n]
  have hc : (Real.pi / 4 + -(Real.pi / 4)) / 2 = 0 := by ring
  have hd : Real.pi / 4 - -(Real.pi / 4) = Real.pi / 2 := by ring
  rw [hc, hd, Real.sin_zero, Real.cos_zero, Real.cos_pi_div_two, Real.sin_neg, Real.cos_neg,
    Real.sin_pi_div_four, Real.cos_pi_div_four]
  have harg1 : (0:ℝ) ^ 2 + 1 ^ 2 * 0 = 0 := by ring
  have harg2 : Real.sqrt 2 / 2 * -(Real.sqrt 2 / 2) + Real.sqrt 2 / 2 * (Real.sqrt 2 / 2) =
      0 := by ring
  rw [harg1, harg2, Real.arccos_zero]
  simp only [Prod.mk.injEq]
  refine ⟨by ring, by ring, by norm_num⟩

theorem dist_pA_tA : _distance_tesseroid_point pA tA = 1 / 2 := by
  rw [distance_tesseroid_point_eq, tA_w, tA_e, tA_s, tA_n, tA_bottom, tA_top,
    pA_longitude, pA_latitude, pA_radius]
  have h0 : radians ((-45 + 45) / 2) = 0 := by unfold radians; norm_num
  have h0' : radians 0 = 0 := by unfold radians; norm_num
  rw [h0, h0', Real.sin_zero, Real.cos_zero, sub_zero, Real.cos_zero]
  have harg : ((2:ℝ) - (1 + 2) / 2) ^ 2 + 2 * 2 * ((1 + 2) / 2) * (1 - (0 * 0 + 1 * 1 * 1)) =
      (1 / 2) ^ 2 := by norm_num
  rw [harg]
  exact Real.sqrt_sq (by norm_num)

theorem dist_pB_tA : _distance_tesseroid_point pB tA = 197 / 2 := by
  rw [distance_tesseroid_point_eq, tA_w, tA_e, tA_s, tA_n, tA_bottom, tA_top,
    pB_longitude, pB_latitude, pB_radius]
  have h0 : radians ((-45 + 45) / 2) = 0 := by unfold radians; norm_num
  have h0' : radians 0 = 0 := by unfold radians; norm_num
  rw [h0, h0', Real.sin_zero, Real.cos_zero, sub_zero, Real.cos_zero]
  have harg : ((100:ℝ) - (1 + 2) / 2) ^ 2 +
      2 * 100 * ((1 + 2) / 2) * (1 - (0 * 0 + 1 * 1 * 1)) = (197 / 2) ^ 2 := by norm_num
  rw [harg]
  exact Real.sqrt_sq (by norm_num)

theorem n_lon_pA : n_lon pA (1 : ℝ) tA = 2 := by
  unfold n_lon
  rw [dist_pA_tA, dims_tA]
  have h : (1:ℝ) / 2 / (Real.pi, Real.pi, (1:ℝ)).1 < 1 := by
    dsimp only
    rw [div_lt_one Real.pi_pos]
    linarith [Real.pi_gt_three]
  exact if_pos h

theorem n_lat_pA : n_lat pA (1 : ℝ) tA = 2 := by
  unfold n_lat
  rw [dist_pA_tA, dims_tA]
  have h : (1:ℝ) / 2 / (Real.pi, Real.pi, (1:ℝ)).2.1 < 1 := by
    dsimp only
    rw [div_lt_one Real.pi_pos]
    linarith [Real.pi_gt_three]
  exact if_pos h

/-- With radial discretization disabled, the radial split count is always 1. -/
theorem n_rad_false (c : Coordinates) (D : ℝ) (t : Tesseroid) : n_rad c D false t = 1 := by
  unfold n_rad
  simp

theorem n_lon_pB : n_lon pB (1 : ℝ) tA = 1 := by
  unfold n_lon
  rw [dist_pB_tA, dims_tA]
  have h : ¬ ((197:ℝ) / 2 / (Real.pi, Real.pi, (1:ℝ)).1 < 1) := by
    dsimp only
    rw [not_lt, le_div_iff₀ Real.pi_pos, one_mul]
    linarith [Real.pi_le_four]
  exact if_neg h

theorem n_lat_pB : n_lat pB (1 : ℝ) tA = 1 := by
  unfold n_lat
  rw [dist_pB_tA, dims_tA]
  have h : ¬ ((197:ℝ) / 2 / (Real.pi, Real.pi, (1:ℝ)).2.1 < 1) := by
    dsimp only
    rw [not_lt, le_div_iff₀ Real.pi_pos, one_mul]
    linarith [Real.pi_le_four]
  exact if_neg h

theorem check_tA : _check_tesseroid tA = Except.ok () := by
  unfold _check_tesseroid
  rw [tA_w, tA_e, tA_s, tA_n, tA_bottom, tA_top]
  rw [if_neg (by norm_num), if_neg (by norm_num), if_neg (by norm_num),
    if_neg (by norm_num)]

theorem check_pA_tA : _check_point_outside_tesseroid pA tA = Except.ok () := by
  unfold _check_point_outside_tesseroid
  rw [tA_w, tA_e, tA_s, tA_n, tA_bottom, tA_top, pA_longitude, pA_latitude, pA_radius]
  rw [if_neg (by norm_num)]

theorem check_pB_tA : _check_point_outside_tesseroid pB tA = Except.ok () := by
  unfold _check_point_outside_tesseroid
  rw [tA_w, tA_e, tA_s, tA_n, tA_bottom, tA_top, pB_longitude, pB_latitude, pB_radius]
  rw [if_neg (by norm_num)]

/-- The far-point run: for pB against tA with D = 1 the input tesseroid is
immediately recorded as the single leaf, for any capacities with room for one
leaf. -/
theorem run_caseB (ss md : ℕ) (hmd : 1 ≤ md) :
    _adaptive_discretization pB tA 1 ss md false = ([tA], 0) := by
  have h2 : ¬ (md < 1) := by omega
  unfold _adaptive_discretization
  simp only [discretizationLoop, n_lon_pB, n_lat_pB, n_rad_false]
  norm_num [h2]

/-- Length of a flatMap whose blocks all have the same length. -/
theorem length_flatMap_const {α β : Type} (l : List α) (f : α → List β) (L : ℕ)
    (hL : ∀ a : α, (f a).length = L) : (l.flatMap f).length = l.length * L := by
  induction l with
  | nil => simp
  | cons hd tl ih =>
    simp only [List.flatMap_cons, List.length_append, hL, ih, List.length_cons]
    ring

/-- Indexing into a flatMap whose blocks all have the same length: the element
at flat index i * L + r is element r of block i. -/
theorem getElem?_flatMap_const {α β : Type} (l : List α) (f : α → List β) (L : ℕ)
    (hL : ∀ a : α, (f a).length = L) :
    ∀ (i r : ℕ) (x : α), l[i]? = some x → r < L →
      (l.flatMap f)[i * L + r]? = (f x)[r]? := by
  induction l with
  | nil => intro i r x hx _; simp at hx
  | cons hd tl ih =>
    intro i r x hx hr
    match i with
    | 0 =>
      have hx' : hd = x := by simpa using hx
      subst hx'
      rw [List.flatMap_cons, Nat.zero_mul, Nat.zero_add,
        List.getElem?_append_left (by rw [hL]; omega)]
    | i' + 1 =>
      have hge : (f hd).length ≤ (i' + 1) * L + r := by
        rw [hL]
        calc L = 1 * L := (one_mul L).symm
        _ ≤ (i' + 1) * L := Nat.mul_le_mul_right L (by omega)
        _ ≤ (i' + 1) * L + r := Nat.le_add_right _ _
      rw [List.flatMap_cons, List.getElem?_append_right hge, hL]
      have e : (i' + 1) * L + r - L = i' * L + r := by
        have e2 : (i' + 1) * L + r = i' * L + r + L := by ring
        rw [e2, Nat.add_sub_cancel]
      rw [e]
      exact ih i' r x (by simpa using hx) hr

/-- Length of the triple range nest (outer i, middle j, inner k). -/
theorem length_range_flatMap_map {β : Type} (na nb nc : ℕ) (g : ℕ → ℕ → ℕ → β) :
    ((List.range na).flatMap fun i0 => (List.range nb).flatMap fun j0 =>
      (List.range nc).map fun k0 => g i0 j0 k0).length = na * nb * nc := by
  have hinner : ∀ i0 : ℕ,
      ((List.range nb).flatMap fun j0 => (List.range nc).map fun k0 => g i0 j0 k0).length =
        nb * nc := by
    intro i0
    have h : ∀ j0 : ℕ, ((List.range nc).map fun k0 => g i0 j0 k0).length = nc := by
      intro j0
      rw [List.length_map, List.length_range]
    rw [length_flatMap_const _ _ nc h, List.length_range]
  rw [length_flatMap_const _ _ (nb * nc) hinner, List.length_range, mul_assoc]

/-- Element at row-major flat index (i * nb + j) * nc + k of the triple range
nest. -/
theorem getElem?_range_flatMap_map {β : Type} (na nb nc : ℕ) (g : ℕ → ℕ → ℕ → β)
    (i j k : ℕ) (hi : i < na) (hj : j < nb) (hk : k < nc) :
    ((List.range na).flatMap fun i0 => (List.range nb).flatMap fun j0 =>
      (List.range nc).map fun k0 => g i0 j0 k0)[(i * nb + j) * nc + k]? =
      some (g i j k) := by
  have hinner : ∀ i0 : ℕ,
      ((List.range nb).flatMap fun j0 => (List.range nc).map fun k0 => g i0 j0 k0).length =
        nb * nc := by
    intro i0
    have h : ∀ j0 : ℕ, ((List.range nc).map fun k0 => g i0 j0 k0).length = nc := by
      intro j0
      rw [List.length_map, List.length_range]
    rw [length_flatMap_const _ _ nc h, List.length_range]
  have hmap : ∀ j0 : ℕ, ((List.range nc).map fun k0 => g i j0 k0).length = nc := by
    intro j0
    rw [List.length_map, List.length_range]
  have hidx : (i * nb + j) * nc + k = i * (nb * nc) + (j * nc + k) := by ring
  have hr : j * nc + k < nb * nc := by
    calc j * nc + k < j * nc + nc := Nat.add_lt_add_left hk _
    _ = (j + 1) * nc := (Nat.succ_mul j nc).symm
    _ ≤ nb * nc := Nat.mul_le_mul_right nc (by omega)
  rw [hidx,
    getElem?_flatMap_const (List.range na) _ (nb * nc) hinner i (j * nc + k) i
      (List.getElem?_range hi) hr,
    getElem?_flatMap_const (List.range nb) _ nc hmap j k j
      (List.getElem?_range hj) hk,
    List.getElem?_map, List.getElem?_range hk]
  rfl

/-- The number of children produced by _split_tesseroid. -/
theorem split_tesseroid_length (t : Tesseroid) (a b c : ℕ) :
    (_split_tesseroid t a b c).length = a * b * c := by
  unfold _split_tesseroid
  exact length_range_flatMap_map a b c _

/-- The child of _split_tesseroid at row-major flat index (i * nt + j) * nr + k
is the linear-interpolation child described by the spec. -/
theorem split_tesseroid_getElem (t : Tesseroid) (a b c : ℕ) (i j k : ℕ)
    (hi : i < a) (hj : j < b) (hk : k < c) :
    (_split_tesseroid t a b c)[(i * b + j) * c + k]? =
      some (splitChild t a b c i j k) := by
  unfold _split_tesseroid
  rw [getElem?_range_flatMap_map a b c _ i j k hi hj hk]
  simp only [splitChild, Option.some.injEq, Tesseroid.mk.injEq]
  refine ⟨?_, ?_, ?_, ?_, ?_, ?_⟩ <;> push_cast <;> ring

/-- Every child of a split with radial count 1 keeps the parent's bottom and
top radii. -/
theorem mem_split_bottom_top (t : Tesseroid) (a b : ℕ) (x : Tesseroid)
    (hx : x ∈ _split_tesseroid t a b 1) : x.bottom = t.bottom ∧ x.top = t.top := by
  unfold _split_tesseroid at hx
  simp only [List.mem_flatMap, List.mem_map, List.mem_range] at hx
  obtain ⟨i, hi, j, hj, k, hk, rfl⟩ := hx
  have hk0 : k = 0 := by omega
  subst hk0
  constructor
  · show t.bottom + (t.top - t.bottom) / ((1 : ℕ) : ℝ) * ((0 : ℕ) : ℝ) = t.bottom
    push_cast
    ring
  · show t.bottom + (t.top - t.bottom) / ((1 : ℕ) : ℝ) * (((0 : ℕ) + 1 : ℕ) : ℝ) = t.top
    push_cast
    ring

theorem loop_nil (c : Coordinates) (D : ℝ) (radial : Bool) (ss md : ℕ)
    (small : List Tesseroid) :
    discretizationLoop c D radial ss md [] small = (small, 0) := by
  simp only [discretizationLoop]

theorem loop_split_overflow (c : Coordinates) (D : ℝ) (radial : Bool) (ss md : ℕ)
    (t : Tesseroid) (rest small : List Tesseroid)
    (h1 : 1 < n_lon c D t * n_lat c D t * n_rad c D radial t)
    (h2 : ss < rest.length + n_lon c D t * n_lat c D t * n_rad c D radial t) :
    discretizationLoop c D radial ss md (t :: rest) small = (small, -1) := by
  simp only [discretizationLoop]
  rw [if_pos h1, if_pos h2]

theorem loop_split_step (c : Coordinates) (D : ℝ) (radial : Bool) (ss md : ℕ)
    (t : Tesseroid) (rest small : List Tesseroid)
    (h1 : 1 < n_lon c D t * n_lat c D t * n_rad c D radial t)
    (h2 : ¬ ss < rest.length + n_lon c D t * n_lat c D t * n_rad c D radial t) :
    discretizationLoop c D radial ss md (t :: rest) small =
      discretizationLoop c D radial ss md
        ((_split_tesseroid t (n_lon c D t) (n_lat c D t) (n_rad c D radial t)).reverse ++
          rest) small := by
  conv_lhs => rw [discretizationLoop]
  rw [if_pos h1, if_neg h2]

theorem loop_leaf_overflow (c : Coordinates) (D : ℝ) (radial : Bool) (ss md : ℕ)
    (t : Tesseroid) (rest small : List Tesseroid)
    (h1 : ¬ 1 < n_lon c D t * n_lat c D t * n_rad c D radial t)
    (h2 : md < small.length + 1) :
    discretizationLoop c D radial ss md (t :: rest) small = (small, -2) := by
  simp only [discretizationLoop]
  rw [if_neg h1, if_pos h2]

theorem loop_leaf_step (c : Coordinates) (D : ℝ) (radial : Bool) (ss md : ℕ)
    (t : Tesseroid) (rest small : List Tesseroid)
    (h1 : ¬ 1 < n_lon c D t * n_lat c D t * n_rad c D radial t)
    (h2 : ¬ md < small.length + 1) :
    discretizationLoop c D radial ss md (t :: rest) small =
      discretizationLoop c D radial ss md rest (small ++ [t]) := by
  conv_lhs => rw [discretizationLoop]
  rw [if_neg h1, if_neg h2]

/-- A first tesseroid that must split while the stack cannot hold its children
makes the discretization fail with error code -1 and an empty leaf list. -/
theorem adaptive_stack_overflow (c : Coordinates) (t : Tesseroid) (D : ℝ) (ss md : ℕ)
    (radial : Bool)
    (hsplit : 1 < n_lon c D t * n_lat c D t * n_rad c D radial t)
    (hss : ss < n_lon c D t * n_lat c D t * n_rad c D radial t) :
    _adaptive_discretization c t D ss md radial = ([], -1) := by
  unfold _adaptive_discretization
  exact loop_split_overflow c D radial ss md t [] [] hsplit
    (by simpa using hss)

/-- A first tesseroid that needs no split overflows a zero-capacity leaf buffer:
error code -2 and an empty leaf list. -/
theorem adaptive_buffer_overflow (c : Coordinates) (t : Tesseroid) (D : ℝ) (ss : ℕ)
    (radial : Bool)
    (hleaf : n_lon c D t * n_lat c D t * n_rad c D radial t = 1) :
    _adaptive_discretization c t D ss 0 radial = ([], -2) := by
  unfold _adaptive_discretization
  exact loop_leaf_overflow c D radial ss 0 t [] [] (by rw [hleaf]; omega) (by simp)

/-- When both validation checks pass and the discretization reports error -1,
the driver surfaces StackOverflow. -/
theorem gravity_stack_overflow (c : Coordinates) (t : Tesseroid) (D : ℝ)
    (deg : ℕ × ℕ × ℕ) (ss md : ℕ) (radial : Bool)
    (hv : _check_tesseroid t = Except.ok ())
    (hp : _check_point_outside_tesseroid c t = Except.ok ())
    (hrun : (_adaptive_discretization c t D ss md radial).2 = -1) :
    tesseroid_gravity c t D deg ss md radial = Except.error TessError.StackOverflow := by
  simp only [tesseroid_gravity, hv, hp, hrun]
  norm_num

/-- When both validation checks pass and the discretization reports error -2,
the driver surfaces BufferOverflow. -/
theorem gravity_buffer_overflow (c : Coordinates) (t : Tesseroid) (D : ℝ)
    (deg : ℕ × ℕ × ℕ) (ss md : ℕ) (radial : Bool)
    (hv : _check_tesseroid t = Except.ok ())
    (hp : _check_point_outside_tesseroid c t = Except.ok ())
    (hrun : (_adaptive_discretization c t D ss md radial).2 = -2) :
    tesseroid_gravity c t D deg ss md radial = Except.error TessError.BufferOverflow := by
  simp only [tesseroid_gravity, hv, hp, hrun]
  norm_num

/-- Invariant for the 2-D mode: if everything on the stack and in the leaf
buffer has the given bottom/top radii, so does everything in the final leaf
list. -/
theorem loop_bottom_top_invariant (c : Coordinates) (D : ℝ) (ss md : ℕ) (b tp : ℝ) :
    ∀ stack small : List Tesseroid,
      (∀ x ∈ stack, x.bottom = b ∧ x.top = tp) →
      (∀ x ∈ small, x.bottom = b ∧ x.top = tp) →
      ∀ x ∈ (discretizationLoop c D false ss md stack small).1,
        x.bottom = b ∧ x.top = tp := by
  intro stack small
  induction stack, small using discretizationLoop.induct c D false ss md with
  | case1 small =>
    intro _ hsmall
    rw [loop_nil]
    exact hsmall
  | case2 t rest small h1 h2 =>
    intro _ hsmall
    rw [loop_split_overflow c D false ss md t rest small h1 h2]
    exact hsmall
  | case3 t rest small h1 h2 ih =>
    intro hstack hsmall
    rw [loop_split_step c D false ss md t rest small h1 h2]
    apply ih
    · intro x hx
      rcases List.mem_append.mp hx with hx | hx
      · have hx' : x ∈ _split_tesseroid t (n_lon c D t) (n_lat c D t)
            (n_rad c D false t) := List.mem_reverse.mp hx
        rw [n_rad_false] at hx'
        have hbt := mem_split_bottom_top t (n_lon c D t) (n_lat c D t) x hx'
        have hparent := hstack t (List.mem_cons_self t rest)
        exact ⟨hbt.1.trans hparent.1, hbt.2.trans hparent.2⟩
      · exact hstack x (List.mem_cons_of_mem t hx)
    · exact hsmall
  | case4 t rest small h1 h2 =>
    intro _ hsmall
    rw [loop_leaf_overflow c D false ss md t rest small h1 h2]
    exact hsmall
  | case5 t rest small h1 h2 ih =>
    intro hstack hsmall
    rw [loop_leaf_step c D false ss md t rest small h1 h2]
    apply ih
    · intro x hx
      exact hstack x (List.mem_cons_of_mem t hx)
    · intro x hx
      rcases List.mem_append.mp hx with hx | hx
      · exact hsmall x hx
      · have hxt : x = t := by simpa using hx
        subst hxt
        exact hstack x (List.mem_cons_self x rest)

/-- Two runs of the loop from the same state that both finish with error code 0
agree completely, whatever their capacities. -/
theorem loop_capacity_independent (c : Coordinates) (D : ℝ) (radial : Bool)
    (ss1 md1 ss2 md2 : ℕ) :
    ∀ stack small : List Tesseroid,
      (discretizationLoop c D radial ss1 md1 stack small).2 = 0 →
      (discretizationLoop c D radial ss2 md2 stack small).2 = 0 →
      discretizationLoop c D radial ss1 md1 stack small =
        discretizationLoop c D radial ss2 md2 stack small := by
  intro stack small
  induction stack, small using discretizationLoop.induct c D radial ss1 md1 with
  | case1 small =>
    intro _ _
    rw [loop_nil, loop_nil]
  | case2 t rest small h1 h2 =>
    intro ha _
    rw [loop_split_overflow c D radial ss1 md1 t rest small h1 h2] at ha
    simp at ha
  | case3 t rest small h1 h2 ih =>
    intro ha hb
    rw [loop_split_step c D radial ss1 md1 t rest small h1 h2] at ha ⊢
    by_cases hg : ss2 < rest.length + n_lon c D t * n_lat c D t * n_rad c D radial t
    · rw [loop_split_overflow c D radial ss2 md2 t rest small h1 hg] at hb
      simp at hb
    · rw [loop_split_step c D radial ss2 md2 t rest small h1 hg] at hb ⊢
      exact ih ha hb
  | case4 t rest small h1 h2 =>
    intro ha _
    rw [loop_leaf_overflow c D radial ss1 md1 t rest small h1 h2] at ha
    simp at ha
  | case5 t rest small h1 h2 ih =>
    intro ha hb
    rw [loop_leaf_step c D radial ss1 md1 t rest small h1 h2] at ha ⊢
    by_cases hg : md2 < small.length + 1
    · rw [loop_leaf_overflow c D radial ss2 md2 t rest small h1 hg] at hb
      simp at hb
    · rw [loop_leaf_step c D radial ss2 md2 t rest small h1 hg] at hb ⊢
      exact ih ha hb

theorem fuel_nil (c : Coordinates) (D : ℝ) (radial : Bool) (ss md fuel : ℕ)
    (small : List Tesseroid) :
    discretizationLoopFuel c D radial ss md (fuel + 1) [] small = some (small, 0) := by
  simp only [discretizationLoopFuel]

theorem fuel_split_overflow (c : Coordinates) (D : ℝ) (radial : Bool) (ss md fuel : ℕ)
    (t : Tesseroid) (rest small : List Tesseroid)
    (h1 : 1 < n_lon c D t * n_lat c D t * n_rad c D radial t)
    (h2 : ss < rest.length + n_lon c D t * n_lat c D t * n_rad c D radial t) :
    discretizationLoopFuel c D radial ss md (fuel + 1) (t :: rest) small =
      some (small, -1) := by
  simp only [discretizationLoopFuel]
  rw [if_pos h1, if_pos h2]

theorem fuel_split_step (c : Coordinates) (D : ℝ) (radial : Bool) (ss md fuel : ℕ)
    (t : Tesseroid) (rest small : List Tesseroid)
    (h1 : 1 < n_lon c D t * n_lat c D t * n_rad c D radial t)
    (h2 : ¬ ss < rest.length + n_lon c D t * n_lat c D t * n_rad c D radial t) :
    discretizationLoopFuel c D radial ss md (fuel + 1) (t :: rest) small =
      discretizationLoopFuel c D radial ss md fuel
        ((_split_tesseroid t (n_lon c D t) (n_lat c D t) (n_rad c D radial t)).reverse ++
          rest) small := by
  simp only [discretizationLoopFuel]
  rw [if_pos h1, if_neg h2]

theorem fuel_leaf_overflow (c : Coordinates) (D : ℝ) (radial : Bool) (ss md fuel : ℕ)
    (t : Tesseroid) (rest small : List Tesseroid)
    (h1 : ¬ 1 < n_lon c D t * n_lat c D t * n_rad c D radial t)
    (h2 : md < small.length + 1) :
    discretizationLoopFuel c D radial ss md (fuel + 1) (t :: rest) small =
      some (small, -2) := by
  simp only [discretizationLoopFuel]
  rw [if_neg h1, if_pos h2]

theorem fuel_leaf_step (c : Coordinates) (D : ℝ) (radial : Bool) (ss md fuel : ℕ)
    (t : Tesseroid) (rest small : List Tesseroid)
    (h1 : ¬ 1 < n_lon c D t * n_lat c D t * n_rad c D radial t)
    (h2 : ¬ md < small.length + 1) :
    discretizationLoopFuel c D radial ss md (fuel + 1) (t :: rest) small =
      discretizationLoopFuel c D radial ss md fuel rest (small ++ [t]) := by
  simp only [discretizationLoopFuel]
  rw [if_neg h1, if_neg h2]

/-- With fuel exceeding the potential (md + 1 - leaves) * (ss + 2) +
(ss + 1 - stack length), the fuel-indexed loop finishes and agrees with the
loop: every iteration strictly decreases the potential. -/
theorem loopFuel_eq_loop (c : Coordinates) (D : ℝ) (radial : Bool) (ss md : ℕ) :
    ∀ (fuel : ℕ) (stack small : List Tesseroid),
      (md + 1 - small.length) * (ss + 2) + (ss + 1 - stack.length) < fuel →
      discretizationLoopFuel c D radial ss md fuel stack small =
        some (discretizationLoop c D radial ss md stack small) := by
  intro fuel
  induction fuel with
  | zero =>
    intro stack small h
    exact absurd h (Nat.not_lt_zero _)
  | succ fuel ih =>
    intro stack small h
    match stack with
    | [] => rw [fuel_nil, loop_nil]
    | t :: rest =>
      by_cases h1 : 1 < n_lon c D t * n_lat c D t * n_rad c D radial t
      · by_cases h2 : ss < rest.length + n_lon c D t * n_lat c D t * n_rad c D radial t
        · rw [fuel_split_overflow c D radial ss md fuel t rest small h1 h2,
            loop_split_overflow c D radial ss md t rest small h1 h2]
        · rw [fuel_split_step c D radial ss md fuel t rest small h1 h2,
            loop_split_step c D radial ss md t rest small h1 h2]
          apply ih
          simp only [List.length_append, List.length_reverse, split_tesseroid_length,
            List.length_cons] at h ⊢
          generalize hA : (md + 1 - small.length) * (ss + 2) = A at h ⊢
          generalize hm : n_lon c D t * n_lat c D t * n_rad c D radial t = m at h1 h2 ⊢
          omega
      · by_cases h2 : md < small.length + 1
        · rw [fuel_leaf_overflow c D radial ss md fuel t rest small h1 h2,
            loop_leaf_overflow c D radial ss md t rest small h1 h2]
        · rw [fuel_leaf_step c D radial ss md fuel t rest small h1 h2,
            loop_leaf_step c D radial ss md t rest small h1 h2]
          apply ih
          simp only [List.length_append, List.length_cons, List.length_nil,
            Nat.zero_add] at h ⊢
          have e : md + 1 - small.length = (md + 1 - (small.length + 1)) + 1 := by
            omega
          rw [e, add_mul, one_mul] at h
          generalize (md + 1 - (small.length + 1)) * (ss + 2) = A at h ⊢
          omega

/-- Row-major flat index bound for a triple nest. -/
theorem flat3_lt (i j k a b c : ℕ) (hi : i < a) (hj : j < b) (hk : k < c) :
    (i * b + j) * c + k < a * b * c := by
  have h1 : i * b + j < a * b := by
    calc i * b + j < i * b + b := Nat.add_lt_add_left hj _
    _ = (i + 1) * b := (Nat.succ_mul i b).symm
    _ ≤ a * b := Nat.mul_le_mul_right b (by omega)
  calc (i * b + j) * c + k < (i * b + j) * c + c := Nat.add_lt_add_left hk _
  _ = (i * b + j + 1) * c := (Nat.succ_mul _ c).symm
  _ ≤ a * b * c := Nat.mul_le_mul_right c (by omega)

/-- Claim C2: for every tesseroid, the three characteristic dimensions computed
by the discretizer are exactly l_lat = top * arccos(sin n * sin s +
cos n * cos s), l_lon = top * arccos(sin^2 latitude_center +
cos^2 latitude_center * cos(e - w)) with latitude_center = (n + s) / 2, and
l_rad = top - bottom, where the angular bounds are first converted to radians
and both arc lengths use the tesseroid's top radius as the radius scale. -/
theorem claim_C2 (t : Tesseroid) :
    (_tesseroid_dimensions t).2.1 =
      t.top * Real.arccos (Real.sin (radians t.n) * Real.sin (radians t.s) +
        Real.cos (radians t.n) * Real.cos (radians t.s)) ∧
    (_tesseroid_dimensions t).1 =
      t.top * Real.arccos
        (Real.sin ((radians t.n + radians t.s) / 2) ^ 2 +
          Real.cos ((radians t.n + radians t.s) / 2) ^ 2 *
            Real.cos (radians t.e - radians t.w)) ∧
    (_tesseroid_dimensions t).2.2 = t.top - t.bottom :=
  ⟨rfl, rfl, rfl⟩

/-- Claim C3: for every observation point and tesseroid, the distance used by
the split criterion is the chord distance between the observation point (the
subscript p below) and the tesseroid's geometric center: with
cos psi = sin(phi_p) sin(phi) + cos(phi_p) cos(phi) cos(lambda_p - lambda),
distance = sqrt((r - r_p)^2 + 2 r r_p (1 - cos psi)), angles in radians, where
r is the midpoint of bottom and top and phi, lambda are the midpoint latitude
and longitude of the tesseroid. -/
theorem claim_C3 (c : Coordinates) (t : Tesseroid) :
    _distance_tesseroid_point c t =
      Real.sqrt ((((t.bottom + t.top) / 2) - c.radius) ^ 2 +
        2 * ((t.bottom + t.top) / 2) * c.radius *
          (1 - (Real.sin (radians c.latitude) * Real.sin (radians ((t.s + t.n) / 2)) +
            Real.cos (radians c.latitude) * Real.cos (radians ((t.s + t.n) / 2)) *
              Real.cos (radians c.longitude - radians ((t.w + t.e) / 2))))) := by
  rw [distance_tesseroid_point_eq]
  congr 1
  rw [Real.cos_sub, Real.cos_sub]
  ring

/-- Claim C7: if the input tesseroid already satisfies the distance-size
criterion on every axis (distance / axis length at least D for longitude and
latitude, and for radius whenever radial discretization is enabled) and the
leaf buffer has room for one leaf, the discretization succeeds with exactly one
leaf equal to the input tesseroid. -/
theorem claim_C7 (c : Coordinates) (t : Tesseroid) (D : ℝ) (ss md : ℕ) (radial : Bool)
    (h1 : D ≤ _distance_tesseroid_point c t / (_tesseroid_dimensions t).1)
    (h2 : D ≤ _distance_tesseroid_point c t / (_tesseroid_dimensions t).2.1)
    (h3 : radial = true →
      D ≤ _distance_tesseroid_point c t / (_tesseroid_dimensions t).2.2)
    (hmd : 1 ≤ md) :
    _adaptive_discretization c t D ss md radial = ([t], 0) := by
  have hlon : n_lon c D t = 1 := by
    unfold n_lon
    exact if_neg (not_lt.mpr h1)
  have hlat : n_lat c D t = 1 := by
    unfold n_lat
    exact if_neg (not_lt.mpr h2)
  have hrad : n_rad c D radial t = 1 := by
    unfold n_rad
    refine if_neg ?_
    rintro ⟨hlt, hb⟩
    exact absurd hlt (not_lt.mpr (h3 hb))
  unfold _adaptive_discretization
  rw [loop_leaf_step c D radial ss md t [] []
    (by rw [hlon, hlat, hrad]; omega) (by simp; omega), loop_nil]
  simp

theorem claim_C7_witness :
    _adaptive_discretization pB tA 1 100 100 false = ([tA], 0) := by
  refine claim_C7 pB tA 1 100 100 false ?_ ?_ ?_ (by norm_num)
  · rw [dist_pB_tA, dims_tA]
    dsimp only
    rw [le_div_iff₀ Real.pi_pos, one_mul]
    linarith [Real.pi_le_four]
  · rw [dist_pB_tA, dims_tA]
    dsimp only
    rw [le_div_iff₀ Real.pi_pos, one_mul]
    linarith [Real.pi_le_four]
  · intro hcontr
    exact absurd hcontr (by simp)

/-- With a zero-capacity leaf buffer the loop never succeeds and never keeps a
leaf: any leaf attempt overflows the buffer immediately, and splitting can only
end in a stack overflow. -/
theorem loop_md0 (c : Coordinates) (D : ℝ) (radial : Bool) (ss : ℕ) :
    ∀ stack small : List Tesseroid, stack ≠ [] → small = [] →
      (discretizationLoop c D radial ss 0 stack small).1 = [] ∧
      (discretizationLoop c D radial ss 0 stack small).2 ≠ 0 := by
  intro stack small
  induction stack, small using discretizationLoop.induct c D radial ss 0 with
  | case1 small =>
    intro h _
    exact absurd rfl h
  | case2 t rest small h1 h2 =>
    intro _ hsm
    rw [loop_split_overflow c D radial ss 0 t rest small h1 h2]
    subst hsm
    exact ⟨rfl, by simp⟩
  | case3 t rest small h1 h2 ih =>
    intro _ hsm
    refine (loop_split_step c D radial ss 0 t rest small h1 h2) ▸ ih ?_ hsm
    have hlen : ((_split_tesseroid t (n_lon c D t) (n_lat c D t)
        (n_rad c D radial t)).reverse ++ rest).length ≠ 0 := by
      simp only [List.length_append, List.length_reverse, split_tesseroid_length]
      generalize hm : n_lon c D t * n_lat c D t * n_rad c D radial t = m at h1
      omega
    intro hnil
    exact hlen (by rw [hnil]; rfl)
  | case4 t rest small h1 h2 =>
    intro _ hsm
    rw [loop_leaf_overflow c D radial ss 0 t rest small h1 h2]
    subst hsm
    exact ⟨rfl, by simp⟩
  | case5 t rest small h1 h2 ih =>
    intro _ _
    exact absurd (Nat.succ_pos small.length) h2

/-- Claim C1: on a valid (point, tesseroid) input whose first processed
tesseroid requires at least one split, calling tesseroid_gravity with
stack_size = 1 fails with StackOverflow; on a valid input whose first
tesseroid needs no split, calling with max_discretizations = 0 fails with
BufferOverflow as soon as the first leaf would be recorded — and in general a
run with max_discretizations = 0 never succeeds and never keeps any leaf; in
either overflow case the error is surfaced to the caller without any leaf set
or gravity value. -/
theorem claim_C1 (c c' c'' : Coordinates) (t t' t'' : Tesseroid) (D D' D'' : ℝ)
    (deg deg' : ℕ × ℕ × ℕ) (radial radial' radial'' : Bool) (md ss' ss'' : ℕ)
    (hv : _check_tesseroid t = Except.ok ())
    (hp : _check_point_outside_tesseroid c t = Except.ok ())
    (hsplit : 1 < n_lon c D t * n_lat c D t * n_rad c D radial t)
    (hv' : _check_tesseroid t' = Except.ok ())
    (hp' : _check_point_outside_tesseroid c' t' = Except.ok ())
    (hleaf : n_lon c' D' t' * n_lat c' D' t' * n_rad c' D' radial' t' = 1) :
    tesseroid_gravity c t D deg 1 md radial = Except.error TessError.StackOverflow ∧
    tesseroid_gravity c' t' D' deg' ss' 0 radial' =
      Except.error TessError.BufferOverflow ∧
    ((_adaptive_discretization c'' t'' D'' ss'' 0 radial'').1 = [] ∧
      (_adaptive_discretization c'' t'' D'' ss'' 0 radial'').2 ≠ 0) := by
  refine ⟨?_, ?_, ?_⟩
  · exact gravity_stack_overflow c t D deg 1 md radial hv hp
      (by rw [adaptive_stack_overflow c t D 1 md radial hsplit (by omega)])
  · exact gravity_buffer_overflow c' t' D' deg' ss' 0 radial' hv' hp'
      (by rw [adaptive_buffer_overflow c' t' D' ss' radial' hleaf])
  · exact loop_md0 c'' D'' radial'' ss'' [t''] [] (by simp) rfl

theorem claim_C1_witness :
    tesseroid_gravity pA tA 1 (2, 2, 2) 1 100 false =
      Except.error TessError.StackOverflow ∧
    tesseroid_gravity pB tA 1 (2, 2, 2) 100 0 false =
      Except.error TessError.BufferOverflow ∧
    ((_adaptive_discretization pA tA 1 50 0 false).1 = [] ∧
      (_adaptive_discretization pA tA 1 50 0 false).2 ≠ 0) :=
  claim_C1 pA pB pA tA tA tA 1 1 1 (2, 2, 2) (2, 2, 2) false false false 100 100 50
    check_tA check_pA_tA (by rw [n_lon_pA, n_lat_pA, n_rad_false]; norm_num)
    check_tA check_pB_tA (by rw [n_lon_pB, n_lat_pB, n_rad_false])

/-- Claim C5: with radial discretization disabled, every leaf produced by the
adaptive discretization keeps the original tesseroid's bottom and top radii,
and the radial axis is never split regardless of the distance-size ratio. -/
theorem claim_C5 (c : Coordinates) (t : Tesseroid) (D : ℝ) (ss md : ℕ) :
    (∀ leaf ∈ (_adaptive_discretization c t D ss md false).1,
      leaf.bottom = t.bottom ∧ leaf.top = t.top) ∧
    n_rad c D false t = 1 := by
  constructor
  · intro leaf hleaf
    refine loop_bottom_top_invariant c D ss md t.bottom t.top [t] [] ?_ (by simp)
      leaf hleaf
    intro x hx
    have hxt : x = t := by simpa using hx
    subst hxt
    exact ⟨rfl, rfl⟩
  · exact n_rad_false c D t

theorem claim_C5_witness :
    (tA.bottom = tA.bottom ∧ tA.top = tA.top) ∧ n_rad pB 1 false tA = 1 := by
  obtain ⟨h1, h2⟩ := claim_C5 pB tA 1 100 100
  refine ⟨h1 tA ?_, h2⟩
  rw [run_caseB 100 100 (by norm_num)]
  simp

/-- Claim C9: two runs of the adaptive discretization that differ only in
stack_size and/or max_discretizations and that both complete without an
overflow error produce identical leaf lists, in the same order. -/
theorem claim_C9 (c : Coordinates) (t : Tesseroid) (D : ℝ) (radial : Bool)
    (ss1 md1 ss2 md2 : ℕ)
    (h1 : (_adaptive_discretization c t D ss1 md1 radial).2 = 0)
    (h2 : (_adaptive_discretization c t D ss2 md2 radial).2 = 0) :
    (_adaptive_discretization c t D ss1 md1 radial).1 =
      (_adaptive_discretization c t D ss2 md2 radial).1 := by
  have h := loop_capacity_independent c D radial ss1 md1 ss2 md2 [t] [] h1 h2
  unfold _adaptive_discretization
  rw [h]

theorem claim_C9_witness :
    (_adaptive_discretization pB tA 1 100 100 false).1 =
      (_adaptive_discretization pB tA 1 37 55 false).1 :=
  claim_C9 pB tA 1 false 100 100 37 55
    (by rw [run_caseB 100 100 (by norm_num)]) (by rw [run_caseB 37 55 (by norm_num)])

/-- Claim C10: for every input and capacities, the discretization loop
terminates and returns within a number of iterations bounded in terms of the
two capacities: the fuel-indexed loop already finishes on
(md + 1) * (ss + 2) + ss + 1 iterations and agrees with the loop's result,
because every iteration either records a leaf (bounded by the leaf capacity)
or strictly grows the stack (bounded by the stack capacity). -/
theorem claim_C10 (c : Coordinates) (t : Tesseroid) (D : ℝ) (ss md : ℕ)
    (radial : Bool) :
    discretizationLoopFuel c D radial ss md ((md + 1) * (ss + 2) + ss + 1) [t] [] =
      some (_adaptive_discretization c t D ss md radial) := by
  unfold _adaptive_discretization
  apply loopFuel_eq_loop
  simp only [List.length_cons, List.length_nil, Nat.zero_add, Nat.sub_zero]
  generalize (md + 1) * (ss + 2) = A
  omega

/-- Claim C4: an axis is marked for splitting exactly when
distance / axis_length < D (the radial axis additionally requiring radial
discretization); when at least one axis is marked and the stack has room, the
marked axes are halved, unmarked axes are left whole, and the children are
pushed by iterating (i, j, k) in row-major order (longitude outermost, radius
innermost), each child's bounds given by linear interpolation. -/
theorem claim_C4 (c : Coordinates) (D : ℝ) (radial : Bool) (t : Tesseroid)
    (rest small : List Tesseroid) (ss md : ℕ) (i j k : ℕ) :
    (n_lon c D t = 2 ↔
      _distance_tesseroid_point c t / (_tesseroid_dimensions t).1 < D) ∧
    (n_lat c D t = 2 ↔
      _distance_tesseroid_point c t / (_tesseroid_dimensions t).2.1 < D) ∧
    (n_rad c D radial t = 2 ↔
      (_distance_tesseroid_point c t / (_tesseroid_dimensions t).2.2 < D ∧
        radial = true)) ∧
    (1 < n_lon c D t * n_lat c D t * n_rad c D radial t →
      ¬ ss < rest.length + n_lon c D t * n_lat c D t * n_rad c D radial t →
      discretizationLoop c D radial ss md (t :: rest) small =
        discretizationLoop c D radial ss md
          ((_split_tesseroid t (n_lon c D t) (n_lat c D t)
            (n_rad c D radial t)).reverse ++ rest) small) ∧
    (i < n_lon c D t → j < n_lat c D t → k < n_rad c D radial t →
      (_split_tesseroid t (n_lon c D t) (n_lat c D t)
        (n_rad c D radial t))[(i * n_lat c D t + j) * n_rad c D radial t + k]? =
        some (splitChild t (n_lon c D t) (n_lat c D t) (n_rad c D radial t) i j k)) := by
  refine ⟨?_, ?_, ?_, ?_, ?_⟩
  · unfold n_lon
    by_cases h : _distance_tesseroid_point c t / (_tesseroid_dimensions t).1 < D
    · rw [if_pos h]
      simp [h]
    · rw [if_neg h]
      simp [h]
  · unfold n_lat
    by_cases h : _distance_tesseroid_point c t / (_tesseroid_dimensions t).2.1 < D
    · rw [if_pos h]
      simp [h]
    · rw [if_neg h]
      simp [h]
  · unfold n_rad
    by_cases h : _distance_tesseroid_point c t / (_tesseroid_dimensions t).2.2 < D ∧
        radial = true
    · rw [if_pos h]
      simp [h]
    · rw [if_neg h]
      simp only [OfNat.one_ne_ofNat, false_iff]
      exact h
  · exact fun h1 h2 => loop_split_step c D radial ss md t rest small h1 h2
  · exact fun hi hj hk => split_tesseroid_getElem t _ _ _ i j k hi hj hk

theorem claim_C4_witness :
    n_lon pA (1 : ℝ) tA = 2 ∧
    discretizationLoop pA 1 false 100 100 [tA] [] =
      discretizationLoop pA 1 false 100 100
        ((_split_tesseroid tA 2 2 1).reverse ++ []) [] ∧
    (_split_tesseroid tA 2 2 1)[(1 * 2 + 0) * 1 + 0]? =
      some (splitChild tA 2 2 1 1 0 0) := by
  obtain ⟨h1, h2, h3, h4, h5⟩ := claim_C4 pA 1 false tA [] [] 100 100 1 0 0
  refine ⟨n_lon_pA, ?_, ?_⟩
  · have h := h4 (by rw [n_lon_pA, n_lat_pA, n_rad_false]; norm_num)
      (by rw [n_lon_pA, n_lat_pA, n_rad_false]; simp)
    rwa [n_lon_pA, n_lat_pA, n_rad_false] at h
  · have h := h5 (by rw [n_lon_pA]; norm_num) (by rw [n_lat_pA]; norm_num)
      (by rw [n_rad_false]; norm_num)
    rwa [n_lon_pA, n_lat_pA, n_rad_false] at h

/-- Claim C6: the converter produces exactly N * lon_degree * lat_degree *
rad_degree point masses from N leaves; the point mass for leaf index a and node
indices (i, j, k) sits at row-major flat index ((a * lon_degree + i) *
lat_degree + j) * rad_degree + k; each position coordinate is the affine map
0.5 * (hi - lo) * u + 0.5 * (hi + lo) of the axis's unscaled node u, and the
weight is A_factor * kappa * w_lon[i] * w_lat[j] * w_rad[k] with A_factor =
(1/8) * dlon_rad * dlat_rad * dradius and kappa = radius^2 * cos(latitude)
evaluated at the point mass's own computed position. -/
theorem claim_C6 (ts : List Tesseroid) (lon_nodes lat_nodes rad_nodes : List ℝ)
    (lon_weights lat_weights rad_weights : List ℝ) (a i j k : ℕ) (t : Tesseroid) :
    (tesseroids_to_point_masses ts (lon_nodes, lat_nodes, rad_nodes)
      (lon_weights, lat_weights, rad_weights)).length =
        ts.length * (lon_nodes.length * lat_nodes.length * rad_nodes.length) ∧
    (ts[a]? = some t → i < lon_nodes.length → j < lat_nodes.length →
      k < rad_nodes.length →
      (tesseroids_to_point_masses ts (lon_nodes, lat_nodes, rad_nodes)
        (lon_weights, lat_weights, rad_weights))[((a * lon_nodes.length + i) *
          lat_nodes.length + j) * rad_nodes.length + k]? =
        some ⟨0.5 * (t.e - t.w) * lon_nodes.getD i 0 + 0.5 * (t.e + t.w),
          0.5 * (t.n - t.s) * lat_nodes.getD j 0 + 0.5 * (t.n + t.s),
          0.5 * (t.top - t.bottom) * rad_nodes.getD k 0 + 0.5 * (t.top + t.bottom),
          1 / 8 * radians (t.e - t.w) * radians (t.n - t.s) * (t.top - t.bottom) *
            ((0.5 * (t.top - t.bottom) * rad_nodes.getD k 0 +
                0.5 * (t.top + t.bottom)) ^ 2 *
              Real.cos (radians (0.5 * (t.n - t.s) * lat_nodes.getD j 0 +
                0.5 * (t.n + t.s)))) *
            lon_weights.getD i 0 * lat_weights.getD j 0 * rad_weights.getD k 0⟩) := by
  have hL : ∀ t' : Tesseroid,
      ((List.range lon_nodes.length).flatMap fun i0 =>
        (List.range lat_nodes.length).flatMap fun j0 =>
          (List.range rad_nodes.length).map fun k0 =>
            point_mass_of t' (lon_nodes, lat_nodes, rad_nodes)
              (lon_weights, lat_weights, rad_weights) i0 j0 k0).length =
        lon_nodes.length * lat_nodes.length * rad_nodes.length :=
    fun t' => length_range_flatMap_map _ _ _ _
  constructor
  · simp only [tesseroids_to_point_masses]
    rw [length_flatMap_const ts _
      (lon_nodes.length * lat_nodes.length * rad_nodes.length) hL]
  · intro hts hi hj hk
    simp only [tesseroids_to_point_masses]
    have hidx : ((a * lon_nodes.length + i) * lat_nodes.length + j) *
        rad_nodes.length + k =
        a * (lon_nodes.length * lat_nodes.length * rad_nodes.length) +
          ((i * lat_nodes.length + j) * rad_nodes.length + k) := by ring
    rw [hidx, getElem?_flatMap_const ts _
        (lon_nodes.length * lat_nodes.length * rad_nodes.length) hL a _ t hts
        (flat3_lt i j k _ _ _ hi hj hk),
      getElem?_range_flatMap_map _ _ _ _ i j k hi hj hk]
    rfl

theorem claim_C6_witness :
    (tesseroids_to_point_masses [tA] ([0], [0], [0]) ([2], [2], [2])).length =
      [tA].length *
        ([(0:ℝ)].length * [(0:ℝ)].length * [(0:ℝ)].length) ∧
    (tesseroids_to_point_masses [tA] ([0], [0], [0]) ([2], [2], [2]))[((0 *
        [(0:ℝ)].length + 0) * [(0:ℝ)].length + 0) * [(0:ℝ)].length + 0]? =
      some ⟨0.5 * (tA.e - tA.w) * [(0:ℝ)].getD 0 0 + 0.5 * (tA.e + tA.w),
        0.5 * (tA.n - tA.s) * [(0:ℝ)].getD 0 0 + 0.5 * (tA.n + tA.s),
        0.5 * (tA.top - tA.bottom) * [(0:ℝ)].getD 0 0 + 0.5 * (tA.top + tA.bottom),
        1 / 8 * radians (tA.e - tA.w) * radians (tA.n - tA.s) * (tA.top - tA.bottom) *
          ((0.5 * (tA.top - tA.bottom) * [(0:ℝ)].getD 0 0 +
              0.5 * (tA.top + tA.bottom)) ^ 2 *
            Real.cos (radians (0.5 * (tA.n - tA.s) * [(0:ℝ)].getD 0 0 +
              0.5 * (tA.n + tA.s)))) *
          [(2:ℝ)].getD 0 0 * [(2:ℝ)].getD 0 0 * [(2:ℝ)].getD 0 0⟩ := by
  obtain ⟨h1, h2⟩ := claim_C6 [tA] [0] [0] [0] [2] [2] [2] 0 0 0 0 tA
  exact ⟨h1, h2 rfl (by norm_num) (by norm_num) (by norm_num)⟩

/-- Claim C8 counterexample: on an input with a GLQ degree less than 1 whose
discretization overflows the stack, the call fails with StackOverflow rather
than InvalidDegree, so the degree failure is not detected before or
independently of the discretization loop. -/
theorem claim_C8_counterexample :
    tesseroid_gravity pA tA 1 (0, 2, 2) 1 100 false =
      Except.error TessError.StackOverflow ∧
    (Except.error TessError.StackOverflow : Except TessError (List Tesseroid × ℕ)) ≠
      Except.error TessError.InvalidDegree := by
  constructor
  · exact gravity_stack_overflow pA tA 1 (0, 2, 2) 1 100 false check_tA check_pA_tA
      (by rw [adaptive_stack_overflow pA tA 1 1 100 false
        (by rw [n_lon_pA, n_lat_pA, n_rad_false]; norm_num)
        (by rw [n_lon_pA, n_lat_pA, n_rad_false]; norm_num)])
  · simp

/-- Claim C8 (amended): on a validated input with some GLQ degree less than 1,
the call fails with InvalidDegree provided the adaptive discretization
completes without overflow; the degree check runs only after the
discretization loop, so the discretization is fully performed first and
overflow errors take precedence. -/
theorem claim_C8 (c : Coordinates) (t : Tesseroid) (D : ℝ) (deg : ℕ × ℕ × ℕ)
    (ss md : ℕ) (radial : Bool)
    (hv : _check_tesseroid t = Except.ok ())
    (hp : _check_point_outside_tesseroid c t = Except.ok ())
    (hdeg : deg.1 < 1 ∨ deg.2.1 < 1 ∨ deg.2.2 < 1)
    (hrun : (_adaptive_discretization c t D ss md radial).2 = 0) :
    tesseroid_gravity c t D deg ss md radial =
      Except.error TessError.InvalidDegree := by
  simp only [tesseroid_gravity, hv, hp, hrun]
  norm_num [glq_nodes_weights]
  rw [if_pos (show deg.1 = 0 ∨ deg.2.1 = 0 ∨ deg.2.2 = 0 by omega)]

theorem claim_C8_witness :
    tesseroid_gravity pB tA 1 (0, 2, 2) 100 100 false =
      Except.error TessError.InvalidDegree :=
  claim_C8 pB tA 1 (0, 2, 2) 100 100 false check_tA check_pB_tA
    (Or.inl (by norm_num)) (by rw [run_caseB 100 100 (by norm_num)])

end Harmonica
